import Mathlib

/-!
Verification of the crashdec decoder (`cffdump/crashdec.c`).

This file gives a shallow embedding of the parts of `crashdec.c` that the
verified properties are about:

* the ring-buffer modulo arithmetic of `dump_cmdstream` (`mod_add`, `cmdszdw`);
* the backward packet-header search and `valid_header`;
* the ascii85 payload decoder `popline_ascii85`;
* the line reader `popline` / `pushline`;
* the scanf-style `parseline` instances used by `decode_bos`, and `decode_bos`
  itself as a step function over the section's lines;
* the register-read helpers `regval` / `regval64` and the overall
  `dump_cmdstream` control flow, with an explicit event trace recording
  register reads, the register reset, ring-buffer memory reads and the
  hand-off to the disassembler.

C strings are modelled as lists of byte values (`List Nat`), 32-bit unsigned
arithmetic is modelled on `Nat`/`Int` with explicit reduction modulo
`4294967296 = 2^32` exactly where the C computation is done in `uint32_t`
or `unsigned`.
-/

set_option autoImplicit false

namespace Crashdec

/-- Byte-list view of a string literal, for writing down concrete input
lines of the coredump text format (C strings are byte arrays). -/
def str (s : String) : List Nat := s.toList.map Char.toNat

/-- Source: `static inline bool is_a6xx(void) { return (600 <= options.gpu_id) && (options.gpu_id < 700); }` -/
def is_a6xx (gpu_id : Nat) : Bool := decide (600 ≤ gpu_id ∧ gpu_id < 700)

/-- Source: `static inline bool is_64b(void) { return options.gpu_id >= 500; }` -/
def is_64b (gpu_id : Nat) : Bool := decide (500 ≤ gpu_id)

/-! ### Ring-buffer modulo arithmetic

`#define mod_add(b, v)  ((ringszdw + (int)(b) + (int)(v)) % ringszdw)`

`ringszdw` is `unsigned`, so the two additions are performed in `unsigned`
arithmetic (i.e. modulo `2^32`) and the `%` is the non-negative unsigned
remainder. -/

/-- The `mod_add` helper macro of `dump_cmdstream`: the sum
`ringszdw + b + v` computed modulo `2^32` (unsigned arithmetic), then
reduced `% ringszdw`. -/
def mod_add (ringszdw b : Nat) (v : Int) : Nat :=
  (((ringszdw : Int) + b + v) % 4294967296).toNat % ringszdw

/-- Source: `unsigned cmdszdw = mod_add(ringbuffers[id].wptr, -rptr);` -/
def cmdszdw (ringszdw wptr rptr : Nat) : Nat :=
  mod_add ringszdw wptr (-(rptr : Int))

/-- C1: for every ring of word capacity `ringszdw` (at most `2^30`, since the
byte size is a `uint32_t` and `ringszdw = size >> 2`) and every corrected read
pointer `rptr` and recorded write pointer `wptr` in `[0, ringszdw)`, the
in-flight word count `cmdszdw` computed by `dump_cmdstream` equals
`(wptr - rptr) mod ringszdw`, lies in `[0, ringszdw)`, and when `wptr < rptr`
wraps to `ringszdw + wptr - rptr`. -/
theorem cmdszdw_modular_distance (ringszdw rptr wptr : Nat)
    (hsz : ringszdw ≤ 1073741824) (hr : rptr < ringszdw) (hw : wptr < ringszdw) :
    (cmdszdw ringszdw wptr rptr : Int) = ((wptr : Int) - rptr) % (ringszdw : Int) ∧
    cmdszdw ringszdw wptr rptr < ringszdw ∧
    (wptr < rptr → cmdszdw ringszdw wptr rptr = ringszdw + wptr - rptr) := by
  have h0 : 0 < ringszdw := Nat.pos_of_ne_zero (by omega)
  have key : cmdszdw ringszdw wptr rptr = (ringszdw + wptr - rptr) % ringszdw := by
    unfold cmdszdw mod_add
    have h1 : ((ringszdw : Int) + wptr + -(rptr : Int)) % 4294967296
        = (ringszdw : Int) + wptr + -(rptr : Int) := by omega
    rw [h1]
    congr 1
    omega
  refine ⟨?_, ?_, ?_⟩
  · rw [key]
    have e1 : (((ringszdw + wptr - rptr) % ringszdw : Nat) : Int)
        = ((ringszdw + wptr - rptr : Nat) : Int) % (ringszdw : Int) := by
      exact_mod_cast rfl
    have e2 : ((ringszdw + wptr - rptr : Nat) : Int)
        = (wptr : Int) - rptr + (ringszdw : Int) * 1 := by omega
    rw [e1, e2, Int.add_mul_emod_self_left]
  · rw [key]
    exact Nat.mod_lt _ h0
  · intro h
    rw [key, Nat.mod_eq_of_lt (by omega)]

/-- Witness for `cmdszdw_modular_distance` at `ringszdw = 8`, `rptr = 5`,
`wptr = 2` (a wrapped pair): the in-flight count is `5`. -/
theorem cmdszdw_modular_distance_witness :
    (8 : Nat) ≤ 1073741824 ∧ (5 : Nat) < 8 ∧ (2 : Nat) < 8 ∧
    ((cmdszdw 8 2 5 : Int) = ((2 : Int) - 5) % (8 : Int) ∧ cmdszdw 8 2 5 < 8 ∧
      (2 < 5 → cmdszdw 8 2 5 = 8 + 2 - 5)) :=
  ⟨by decide, by decide, by decide,
    cmdszdw_modular_distance 8 5 2 (by decide) (by decide) (by decide)⟩

/-! ### Packet-header validity and the backward header search

`valid_header` calls `pkt_is_type4` / `pkt_is_type7`, which live in the
external `cffdec.h` collaborator; they are taken as parameters `t4`, `t7`. -/

/-- Function `valid_header`: on `gpu_id >= 500` a word is a valid header iff it is a
type-4 or type-7 packet header; on older generations every word is accepted. -/
def valid_header (gpu_id : Nat) (t4 t7 : Nat → Bool) (pkt : Nat) : Bool :=
  if 500 ≤ gpu_id then t4 pkt || t7 pkt else true

/-- The body of the backward-search loop of `dump_cmdstream`:

```
for (int idx = 0; idx < lookback; idx++) {
    if (valid_header(ringbuffers[id].buf[rptr]))
        break;
    rptr = mod_add(rptr, 1);
}
```

`valid` is the probe `fun p => valid_header (buf p)`.  The first component
collects the positions probed (the ring-buffer words read), the second is the
final value of `rptr`. -/
def search_loop (ringszdw : Nat) (valid : Nat → Bool) : Nat → Nat → List Nat × Nat
  | 0, rptr => ([], rptr)
  | fuel + 1, rptr =>
    if valid rptr then ([rptr], rptr)
    else
      ((rptr :: (search_loop ringszdw valid fuel (mod_add ringszdw rptr 1)).1),
        (search_loop ringszdw valid fuel (mod_add ringszdw rptr 1)).2)

/-- The whole backward header search: `lookback = 12`, starting at
`rptr = mod_add(ringbuffers[id].rptr, -lookback)`. -/
def header_search (ringszdw : Nat) (valid : Nat → Bool) (rptr0 : Nat) : List Nat × Nat :=
  search_loop ringszdw valid 12 (mod_add ringszdw rptr0 (-12))

lemma mod_add_mod (ringszdw a : Nat) (hsz : ringszdw ≤ 1073741824) (h0 : 0 < ringszdw) :
    mod_add ringszdw (a % ringszdw) 1 = (a + 1) % ringszdw := by
  have hlt : a % ringszdw < ringszdw := Nat.mod_lt _ h0
  unfold mod_add
  have h1 : ((ringszdw : Int) + (a % ringszdw : Nat) + 1) % 4294967296
      = (ringszdw : Int) + (a % ringszdw : Nat) + 1 := by omega
  rw [h1]
  have h2 : (((ringszdw : Int) + (a % ringszdw : Nat) + 1)).toNat
      = (a % ringszdw + 1) + ringszdw := by omega
  rw [h2, Nat.add_mod_right, Nat.mod_add_mod]

lemma mod_add_lookback (ringszdw b : Nat) (i : Nat)
    (hlb : 12 ≤ ringszdw) (hsz : ringszdw ≤ 1073741824) (hb : b < ringszdw) (hi : i ≤ 12) :
    mod_add ringszdw b (-12 + (i : Int)) = (ringszdw + b - 12 + i) % ringszdw := by
  unfold mod_add
  have h1 : ((ringszdw : Int) + b + (-12 + (i : Int))) % 4294967296
      = (ringszdw : Int) + b + (-12 + (i : Int)) := by omega
  rw [h1]
  congr 1
  omega

lemma search_loop_length_le (ringszdw : Nat) (valid : Nat → Bool) :
    ∀ (fuel r : Nat), (search_loop ringszdw valid fuel r).1.length ≤ fuel := by
  intro fuel
  induction fuel with
  | zero => intro r; simp [search_loop]
  | succ n ih =>
    intro r
    by_cases hv : valid r
    · simp [search_loop, hv]
    · simpa [search_loop, hv] using ih (mod_add ringszdw r 1)

lemma search_loop_found (ringszdw : Nat) (valid : Nat → Bool) :
    ∀ (fuel r : Nat), (∃ p ∈ (search_loop ringszdw valid fuel r).1, valid p = true) →
      valid (search_loop ringszdw valid fuel r).2 = true ∧
      (search_loop ringszdw valid fuel r).1.getLast? =
        some (search_loop ringszdw valid fuel r).2 := by
  intro fuel
  induction fuel with
  | zero => intro r h; simp [search_loop] at h
  | succ n ih =>
    intro r h
    by_cases hv : valid r
    · simp [search_loop, hv]
    · rw [show search_loop ringszdw valid (n + 1) r
          = ((r :: (search_loop ringszdw valid n (mod_add ringszdw r 1)).1),
             (search_loop ringszdw valid n (mod_add ringszdw r 1)).2) from by
        simp [search_loop, hv]] at h ⊢
      rcases h with ⟨p, hp, hpv⟩
      rcases List.mem_cons.1 hp with rfl | hp'
      · exact absurd hpv (by simp [hv])
      · have hex : ∃ p ∈ (search_loop ringszdw valid n (mod_add ringszdw r 1)).1,
            valid p = true := ⟨p, hp', hpv⟩
        refine ⟨(ih _ hex).1, ?_⟩
        have h2 := (ih _ hex).2
        rcases hl : (search_loop ringszdw valid n (mod_add ringszdw r 1)).1 with _ | ⟨b, l'⟩
        · rw [hl] at hp'
          exact absurd hp' (List.not_mem_nil p)
        · rw [hl] at h2
          rw [List.getLast?_cons_cons]
          exact h2

lemma search_loop_nomatch (ringszdw : Nat) (valid : Nat → Bool)
    (hsz : ringszdw ≤ 1073741824) (h0 : 0 < ringszdw) :
    ∀ (fuel a : Nat),
      (∀ p ∈ (search_loop ringszdw valid fuel (a % ringszdw)).1, valid p = false) →
      (search_loop ringszdw valid fuel (a % ringszdw)).1.length = fuel ∧
      (search_loop ringszdw valid fuel (a % ringszdw)).2 = (a + fuel) % ringszdw := by
  intro fuel
  induction fuel with
  | zero => intro a _; simp [search_loop]
  | succ n ih =>
    intro a h
    by_cases hv : valid (a % ringszdw)
    · exact absurd hv (by simpa using h (a % ringszdw) (by simp [search_loop, hv]))
    · rw [show search_loop ringszdw valid (n + 1) (a % ringszdw)
          = ((a % ringszdw ::
              (search_loop ringszdw valid n ((a + 1) % ringszdw)).1),
             (search_loop ringszdw valid n ((a + 1) % ringszdw)).2) from by
        simp [search_loop, hv, mod_add_mod ringszdw a hsz h0]] at h ⊢
      have h' : ∀ p ∈ (search_loop ringszdw valid n ((a + 1) % ringszdw)).1,
          valid p = false := fun p hp => h p (List.mem_cons_of_mem _ hp)
      refine ⟨by simpa using (ih (a + 1) h').1, ?_⟩
      rw [(ih (a + 1) h').2]
      congr 1
      omega

lemma search_loop_get? (ringszdw : Nat) (valid : Nat → Bool)
    (hsz : ringszdw ≤ 1073741824) (h0 : 0 < ringszdw) :
    ∀ (fuel a i : Nat), i < (search_loop ringszdw valid fuel (a % ringszdw)).1.length →
      (search_loop ringszdw valid fuel (a % ringszdw)).1.get? i = some ((a + i) % ringszdw) := by
  intro fuel
  induction fuel with
  | zero => intro a i h; simp [search_loop] at h
  | succ n ih =>
    intro a i h
    by_cases hv : valid (a % ringszdw)
    · rw [show search_loop ringszdw valid (n + 1) (a % ringszdw)
          = ([a % ringszdw], a % ringszdw) from by simp [search_loop, hv]] at h ⊢
      have : i = 0 := by simpa using h
      subst this
      simp
    · rw [show search_loop ringszdw valid (n + 1) (a % ringszdw)
          = ((a % ringszdw ::
              (search_loop ringszdw valid n ((a + 1) % ringszdw)).1),
             (search_loop ringszdw valid n ((a + 1) % ringszdw)).2) from by
        simp [search_loop, hv, mod_add_mod ringszdw a hsz h0]] at h ⊢
      match i with
      | 0 => simp
      | i + 1 =>
        simp only [List.length_cons, Nat.add_lt_add_iff_right] at h
        rw [List.get?_cons_succ, ih (a + 1) i h]
        congr 2
        omega

lemma search_loop_valid_head (ringszdw : Nat) (valid : Nat → Bool) (fuel r : Nat)
    (hv : valid r = true) :
    search_loop ringszdw valid (fuel + 1) r = ([r], r) := by
  simp [search_loop, hv]

lemma valid_header_lt500 (gpu_id : Nat) (t4 t7 : Nat → Bool) (pkt : Nat)
    (h : gpu_id < 500) : valid_header gpu_id t4 t7 pkt = true := by
  unfold valid_header
  rw [if_neg (by omega)]

/-- C4 (amended): the backward header search probes only positions of the
12-word lookback window `mod_add(rptr, -12 + i)`, `i < 12`; it performs at
most 12 probes; when no probed word is valid it falls back to the recorded
read pointer (one position past the last position tried, which was
`mod_add(rptr, -1)`); when some probe succeeds it stops at the first valid
position (the last probed one); on `gpu_id < 500` every word passes
`valid_header`, so the search stops at the first probed position. -/
theorem header_search_window (ringszdw rptr0 : Nat) (valid : Nat → Bool)
    (hlb : 12 ≤ ringszdw) (hsz : ringszdw ≤ 1073741824) (hr : rptr0 < ringszdw) :
    (header_search ringszdw valid rptr0).1.length ≤ 12 ∧
    (∀ i, i < (header_search ringszdw valid rptr0).1.length →
      (header_search ringszdw valid rptr0).1.get? i
        = some (mod_add ringszdw rptr0 (-12 + (i : Int)))) ∧
    ((∀ p ∈ (header_search ringszdw valid rptr0).1, valid p = false) →
      (header_search ringszdw valid rptr0).1.length = 12 ∧
      (header_search ringszdw valid rptr0).2 = rptr0 ∧
      (header_search ringszdw valid rptr0).1.getLast?
        = some (mod_add ringszdw rptr0 (-1))) ∧
    ((∃ p ∈ (header_search ringszdw valid rptr0).1, valid p = true) →
      valid (header_search ringszdw valid rptr0).2 = true ∧
      (header_search ringszdw valid rptr0).1.getLast?
        = some (header_search ringszdw valid rptr0).2) ∧
    (∀ (gpu_id : Nat) (t4 t7 : Nat → Bool) (buf : Nat → Nat), gpu_id < 500 →
      header_search ringszdw (fun p => valid_header gpu_id t4 t7 (buf p)) rptr0
        = ([mod_add ringszdw rptr0 (-12)], mod_add ringszdw rptr0 (-12))) := by
  have h0 : 0 < ringszdw := by omega
  have hstart : mod_add ringszdw rptr0 (-12) = (ringszdw + rptr0 - 12) % ringszdw := by
    have h := mod_add_lookback ringszdw rptr0 0 hlb hsz hr (by omega)
    simpa using h
  have hwin : ∀ i : Nat, i ≤ 12 →
      mod_add ringszdw rptr0 (-12 + (i : Int))
        = ((ringszdw + rptr0 - 12) + i) % ringszdw := by
    intro i hi
    rw [mod_add_lookback ringszdw rptr0 i hlb hsz hr hi]
  have hunfold : header_search ringszdw valid rptr0
      = search_loop ringszdw valid 12 ((ringszdw + rptr0 - 12) % ringszdw) := by
    unfold header_search
    rw [hstart]
  refine ⟨?_, ?_, ?_, ?_, ?_⟩
  · rw [hunfold]
    exact search_loop_length_le ringszdw valid 12 _
  · intro i hi
    rw [hunfold] at hi ⊢
    have hlen := search_loop_length_le ringszdw valid 12
      ((ringszdw + rptr0 - 12) % ringszdw)
    rw [search_loop_get? ringszdw valid hsz h0 12 _ i hi, hwin i (by omega)]
  · intro hnone
    rw [hunfold] at hnone ⊢
    have h1 := search_loop_nomatch ringszdw valid hsz h0 12 (ringszdw + rptr0 - 12) hnone
    refine ⟨h1.1, ?_, ?_⟩
    · rw [h1.2]
      have : ringszdw + rptr0 - 12 + 12 = ringszdw + rptr0 := by omega
      rw [this, Nat.add_mod_left, Nat.mod_eq_of_lt hr]
    · have hll : (search_loop ringszdw valid 12 ((ringszdw + rptr0 - 12) % ringszdw)).1.getLast?
          = (search_loop ringszdw valid 12 ((ringszdw + rptr0 - 12) % ringszdw)).1.get? 11 := by
        rw [List.getLast?_eq_get?, h1.1]
      have h11 : mod_add ringszdw rptr0 (-1) = (ringszdw + rptr0 - 12 + 11) % ringszdw := by
        have h := hwin 11 (by omega)
        norm_num at h
        exact h
      rw [hll, search_loop_get? ringszdw valid hsz h0 12 _ 11 (by omega), h11]
  · intro hsome
    rw [hunfold] at hsome ⊢
    exact search_loop_found ringszdw valid 12 _ hsome
  · intro gpu_id t4 t7 buf hgpu
    unfold header_search
    have h12 : (12 : Nat) = 11 + 1 := by norm_num
    rw [h12, search_loop_valid_head]
    exact valid_header_lt500 gpu_id t4 t7 _ hgpu

/-- C4 counterexample to the claim as stated: with capacity 16, recorded read
pointer 12 and no valid header anywhere, the search probes positions 0..11 and
then leaves `rptr = 12` (the recorded read pointer), while the last position
tried was 11 — the fallback is not the last position tried. -/
theorem header_search_fallback_cex :
    (header_search 16 (fun _ => false) 12).2 = 12 ∧
    (header_search 16 (fun _ => false) 12).1.getLast? = some 11 ∧
    (12 : Nat) ≠ 11 := by decide

/-- Witness for `header_search_window` at `ringszdw = 16`, `rptr0 = 12`,
`valid = (· == 3)`: the search starts at position 0 and stops at position 3. -/
theorem header_search_window_witness :
    (12 : Nat) ≤ 16 ∧ (16 : Nat) ≤ 1073741824 ∧ (12 : Nat) < 16 ∧
    ((header_search 16 (fun p => p == 3) 12).1.length ≤ 12 ∧
    (∀ i, i < (header_search 16 (fun p => p == 3) 12).1.length →
      (header_search 16 (fun p => p == 3) 12).1.get? i
        = some (mod_add 16 12 (-12 + (i : Int)))) ∧
    ((∀ p ∈ (header_search 16 (fun p => p == 3) 12).1, (p == 3) = false) →
      (header_search 16 (fun p => p == 3) 12).1.length = 12 ∧
      (header_search 16 (fun p => p == 3) 12).2 = 12 ∧
      (header_search 16 (fun p => p == 3) 12).1.getLast?
        = some (mod_add 16 12 (-1))) ∧
    ((∃ p ∈ (header_search 16 (fun p => p == 3) 12).1, (p == 3) = true) →
      ((header_search 16 (fun p => p == 3) 12).2 == 3) = true ∧
      (header_search 16 (fun p => p == 3) 12).1.getLast?
        = some (header_search 16 (fun p => p == 3) 12).2) ∧
    (∀ (gpu_id : Nat) (t4 t7 : Nat → Bool) (buf : Nat → Nat), gpu_id < 500 →
      header_search 16 (fun p => valid_header gpu_id t4 t7 (buf p)) 12
        = ([mod_add 16 12 (-12)], mod_add 16 12 (-12)))) :=
  ⟨by decide, by decide, by decide,
    header_search_window 16 12 (fun p => p == 3) (by decide) (by decide) (by decide)⟩

/-! ### The ascii85 payload decoder (`popline_ascii85`)

Lines are byte lists; `10` is `'\n'`, `32` is `' '`, `33` is `'!'`,
`122` is `'z'`.  The accumulator is a `uint32_t`, so each step is reduced
modulo `2^32`; `*line - '!'` is computed in `int` and added to the unsigned
accumulator, hence the `Int` computation below. -/

/-- One step of the inner loop: `accum *= 85; accum += *line - '!';`
(`accum` is `uint32_t`). -/
def a85step (accum c : Nat) : Nat :=
  ((((accum : Int) * 85 + c - 33)) % 4294967296).toNat

/-- The inner loop `for (int i = 0; (i < 5) && (*line != '\n'); i++)`:
consumes up to `fuel` bytes, stopping (without consuming) at a newline.
The `[]` case cannot arise for `getline`-produced lines, which always end
with a newline; it stops, conservatively. -/
def a85group : Nat → Nat → List Nat → Nat × List Nat
  | 0, accum, l => (accum, l)
  | _ + 1, accum, [] => (accum, [])
  | fuel + 1, accum, c :: rest =>
    if c = 10 then (accum, c :: rest)
    else a85group fuel (a85step accum c) rest

lemma a85group_length_le : ∀ (fuel accum : Nat) (l : List Nat),
    (a85group fuel accum l).2.length ≤ l.length := by
  intro fuel
  induction fuel with
  | zero => intro accum l; simp [a85group]
  | succ n ih =>
    intro accum l
    match l with
    | [] => simp [a85group]
    | c :: rest =>
      by_cases hc : c = 10
      · simp [a85group, hc]
      · rw [show a85group (n + 1) accum (c :: rest)
            = a85group n (a85step accum c) rest from by simp [a85group, hc]]
        exact Nat.le_succ_of_le (ih _ rest)

/-- The outer loop of `popline_ascii85`: `while (*line != '\n')`, emitting one
word per `z` byte or per (up to) 5-byte group.  Returns the list of words
written through `buf[idx++] = ...`, in order.  The loop consumes at least one
byte per iteration, so the line length is enough fuel; the fuel only makes the
recursion structural and never cuts a run short (`decode85_loop_congr`). -/
def decode85_loop : Nat → List Nat → List Nat
  | 0, _ => []
  | _ + 1, [] => []
  | fuel + 1, c :: rest =>
    if c = 10 then []
    else if c = 122 then 0 :: decode85_loop fuel rest
    else
      (a85group 5 0 (c :: rest)).1 :: decode85_loop fuel (a85group 5 0 (c :: rest)).2

/-- The word sequence written by the decode loop of `popline_ascii85` on a
given line tail. -/
def decode85 (l : List Nat) : List Nat := decode85_loop l.length l

lemma a85group_cons_tail (fuel accum c : Nat) (rest : List Nat) (hc : ¬ c = 10) :
    a85group (fuel + 1) accum (c :: rest) = a85group fuel (a85step accum c) rest := by
  simp [a85group, hc]

lemma decode85_loop_congr : ∀ (fuel1 : Nat) (l : List Nat) (fuel2 : Nat),
    l.length ≤ fuel1 → l.length ≤ fuel2 →
    decode85_loop fuel1 l = decode85_loop fuel2 l := by
  intro fuel1
  induction fuel1 with
  | zero =>
    intro l fuel2 h1 h2
    have : l = [] := List.length_eq_zero.1 (Nat.le_zero.1 h1)
    subst this
    cases fuel2 <;> simp [decode85_loop]
  | succ n ih =>
    intro l fuel2 h1 h2
    match l, fuel2 with
    | [], f2 => cases f2 <;> simp [decode85_loop]
    | c :: rest, 0 => simp at h2
    | c :: rest, f2 + 1 =>
      simp only [List.length_cons, Nat.add_le_add_iff_right] at h1 h2
      by_cases hc : c = 10
      · simp [decode85_loop, hc]
      · by_cases hz : c = 122
        · simp only [decode85_loop, hc, hz, if_true, if_false, if_neg, if_pos]
          rw [ih rest f2 h1 h2]
        · simp only [decode85_loop, hc, hz, if_false]
          have hlen : (a85group 5 0 (c :: rest)).2.length ≤ rest.length := by
            rw [a85group_cons_tail 4 0 c rest hc]
            exact a85group_length_le 4 _ rest
          rw [ih _ f2 (le_trans hlen h1) (le_trans hlen h2)]

/-- Function `popline_ascii85(sizedwords)`: pops the payload line, requires it to start
with at least one space (`assert(*line == ' ')`, modelled as `none`), skips
the indentation, and decodes the rest of the line.  `sizedwords` only sizes
the `calloc`-ed destination buffer in the C code; the decode loop itself
never consults it. -/
def popline_ascii85 (sizedwords : Nat) (line : List Nat) : Option (List Nat) :=
  if line.head? = some 32 then some (decode85 (line.dropWhile (· == 32))) else none

/-- The hypothetical inverse encoder described by the spec: a zero word is
encoded as the lone shorthand byte `'z'`; any other word as 5 bytes carrying
its base-85 digits (most significant first), offset by `'!'`. -/
def encodeWord (w : Nat) : List Nat :=
  if w = 0 then [122]
  else [w / 85 ^ 4 % 85 + 33, w / 85 ^ 3 % 85 + 33, w / 85 ^ 2 % 85 + 33,
        w / 85 % 85 + 33, w % 85 + 33]

/-- Encoding of a word sequence: concatenation of the per-word encodings. -/
def encode85 (ws : List Nat) : List Nat := (ws.map encodeWord).join

lemma a85group_five (a e0 e1 e2 e3 e4 : Nat) (rest : List Nat)
    (h0 : ¬ e0 = 10) (h1 : ¬ e1 = 10) (h2 : ¬ e2 = 10) (h3 : ¬ e3 = 10) (h4 : ¬ e4 = 10) :
    a85group 5 a (e0 :: e1 :: e2 :: e3 :: e4 :: rest) =
      (a85step (a85step (a85step (a85step (a85step a e0) e1) e2) e3) e4, rest) := by
  simp [a85group, h0, h1, h2, h3, h4]

lemma a85_digits (w : Nat) (hw : w < 4294967296) :
    a85step (a85step (a85step (a85step (a85step 0 (w / 52200625 % 85 + 33))
      (w / 614125 % 85 + 33)) (w / 7225 % 85 + 33)) (w / 85 % 85 + 33)) (w % 85 + 33) = w := by
  have d1 : w / 614125 / 85 = w / 52200625 := by
    rw [Nat.div_div_eq_div_mul]
  have d2 : w / 7225 / 85 = w / 614125 := by
    rw [Nat.div_div_eq_div_mul]
  have d3 : w / 85 / 85 = w / 7225 := by
    rw [Nat.div_div_eq_div_mul]
  have s0 : a85step 0 (w / 52200625 % 85 + 33) = w / 52200625 := by unfold a85step; omega
  have s1 : a85step (w / 52200625) (w / 614125 % 85 + 33) = w / 614125 := by
    unfold a85step; omega
  have s2 : a85step (w / 614125) (w / 7225 % 85 + 33) = w / 7225 := by unfold a85step; omega
  have s3 : a85step (w / 7225) (w / 85 % 85 + 33) = w / 85 := by unfold a85step; omega
  have s4 : a85step (w / 85) (w % 85 + 33) = w := by unfold a85step; omega
  rw [s0, s1, s2, s3, s4]

lemma decode85_loop_encodeWord (w : Nat) (hw0 : w ≠ 0) (hw : w < 4294967296)
    (rest : List Nat) :
    ∀ fuel, (encodeWord w ++ rest).length ≤ fuel →
      decode85_loop fuel (encodeWord w ++ rest) = w :: decode85 rest := by
  have hm : ∀ x : Nat, x % 85 < 85 := fun x => Nat.mod_lt x (by norm_num)
  intro fuel hf
  rw [show encodeWord w = [w / 52200625 % 85 + 33, w / 614125 % 85 + 33, w / 7225 % 85 + 33,
      w / 85 % 85 + 33, w % 85 + 33] from by unfold encodeWord; rw [if_neg hw0]; norm_num] at hf ⊢
  obtain ⟨f', rfl⟩ : ∃ f', fuel = f' + 1 := by
    cases fuel
    · simp at hf
    · exact ⟨_, rfl⟩
  simp only [List.cons_append, List.nil_append, List.length_cons] at hf ⊢
  have h10 : ¬ (w / 52200625 % 85 + 33 = 10) := by have := hm (w / 52200625); omega
  have h122 : ¬ (w / 52200625 % 85 + 33 = 122) := by have := hm (w / 52200625); omega
  rw [show decode85_loop (f' + 1)
        ((w / 52200625 % 85 + 33) :: (w / 614125 % 85 + 33) :: (w / 7225 % 85 + 33) ::
          (w / 85 % 85 + 33) :: (w % 85 + 33) :: rest)
      = (a85group 5 0 ((w / 52200625 % 85 + 33) :: (w / 614125 % 85 + 33) ::
          (w / 7225 % 85 + 33) :: (w / 85 % 85 + 33) :: (w % 85 + 33) :: rest)).1 ::
          decode85_loop f' (a85group 5 0 ((w / 52200625 % 85 + 33) :: (w / 614125 % 85 + 33) ::
            (w / 7225 % 85 + 33) :: (w / 85 % 85 + 33) :: (w % 85 + 33) :: rest)).2 from by
    simp [decode85_loop, h10, h122]]
  rw [a85group_five 0 _ _ _ _ _ rest h10
    (by have := hm (w / 614125); omega) (by have := hm (w / 7225); omega)
    (by have := hm (w / 85); omega) (by have := hm w; omega)]
  rw [a85_digits w hw]
  unfold decode85
  rw [decode85_loop_congr f' rest rest.length (by omega) le_rfl]

lemma decode85_z (l : List Nat) : decode85 (122 :: l) = 0 :: decode85 l := by
  unfold decode85
  simp only [List.length_cons]
  rw [show decode85_loop (l.length + 1) (122 :: l) = 0 :: decode85_loop l.length l from by
    simp [decode85_loop]]

lemma decode85_encode85 (ws : List Nat) (h : ∀ w ∈ ws, w < 4294967296) :
    decode85 (encode85 ws ++ [10]) = ws := by
  induction ws with
  | nil =>
    simp only [encode85, List.map_nil, List.join, List.nil_append]
    rfl
  | cons w ws ih =>
    have hw := h w (List.mem_cons_self w ws)
    have hrest : ∀ x ∈ ws, x < 4294967296 := fun x hx => h x (List.mem_cons_of_mem _ hx)
    have henc : encode85 (w :: ws) ++ [10] = encodeWord w ++ (encode85 ws ++ [10]) := by
      simp [encode85]
    rw [henc]
    by_cases hw0 : w = 0
    · subst hw0
      rw [show encodeWord 0 = [122] from rfl, show ([122] : List Nat) ++ (encode85 ws ++ [10])
          = 122 :: (encode85 ws ++ [10]) from rfl]
      rw [decode85_z, ih hrest]
    · unfold decode85
      rw [decode85_loop_encodeWord w hw0 hw (encode85 ws ++ [10]) _ le_rfl]
      unfold decode85 at ih
      rw [ih hrest]

lemma encode85_drop_spaces (ws : List Nat) :
    List.dropWhile (· == 32) (encode85 ws ++ [10]) = encode85 ws ++ [10] := by
  cases ws with
  | nil => rfl
  | cons w ws' =>
    by_cases hw0 : w = 0
    · subst hw0
      rw [show encode85 (0 :: ws') ++ [10] = 122 :: (encode85 ws' ++ [10]) from by
        simp [encode85, encodeWord]]
      rw [List.dropWhile_cons]
      norm_num
    · rw [show encode85 (w :: ws') ++ [10] = (w / 52200625 % 85 + 33) ::
          ((w / 614125 % 85 + 33) :: (w / 7225 % 85 + 33) :: (w / 85 % 85 + 33) ::
            (w % 85 + 33) :: (encode85 ws' ++ [10])) from by
        simp [encode85]
        unfold encodeWord
        rw [if_neg hw0]
        norm_num]
      rw [List.dropWhile_cons]
      have : ¬ (w / 52200625 % 85 + 33 = 32) := by omega
      simp [this]

lemma popline_ascii85_roundtrip_core (sizedwords : Nat) (ws : List Nat)
    (h : ∀ w ∈ ws, w < 4294967296) :
    popline_ascii85 sizedwords (32 :: (encode85 ws ++ [10])) = some ws := by
  unfold popline_ascii85
  have hcond : (32 :: (encode85 ws ++ [10])).head? = some 32 := rfl
  rw [if_pos hcond]
  rw [show List.dropWhile (· == 32) (32 :: (encode85 ws ++ [10]))
      = List.dropWhile (· == 32) (encode85 ws ++ [10]) from by rw [List.dropWhile_cons]; norm_num]
  rw [encode85_drop_spaces ws, decode85_encode85 ws h]

/-- C2: decoding with `popline_ascii85` is a left inverse of the spec's
encoder: for every word sequence of 32-bit words, encoding it (groups of five
`value = value*85 + (char - '!')` digit bytes, a lone `z` byte for a zero
word) and then decoding the resulting indented line reproduces the original
word sequence exactly. -/
theorem popline_ascii85_encode_roundtrip (ws : List Nat)
    (h : ∀ w ∈ ws, w < 4294967296) :
    popline_ascii85 ws.length (32 :: (encode85 ws ++ [10])) = some ws :=
  popline_ascii85_roundtrip_core ws.length ws h

/-- Witness for `popline_ascii85_encode_roundtrip` on `[0, 1, 4294967295]`
(a zero word exercising the `z` shorthand, a small word, and the largest
32-bit word). -/
theorem popline_ascii85_encode_roundtrip_witness :
    (∀ w ∈ ([0, 1, 4294967295] : List Nat), w < 4294967296) ∧
    popline_ascii85 ([0, 1, 4294967295] : List Nat).length
      (32 :: (encode85 [0, 1, 4294967295] ++ [10])) = some [0, 1, 4294967295] :=
  ⟨by decide, popline_ascii85_encode_roundtrip [0, 1, 4294967295] (by decide)⟩

/-- C3 counterexample to the claim as stated: on the line `" zz\n"` with
requested word count `N = 1`, `popline_ascii85` writes two words `[0, 0]`
(one per `z` byte), not at most one — the loop does not stop after `N` words
and consumes the trailing encoded characters. -/
theorem popline_ascii85_bound_cex :
    popline_ascii85 1 (str " zz\n") = some [0, 0] ∧
    ¬ (([0, 0] : List Nat).length ≤ 1) := by
  constructor
  · decide
  · decide

/-- C3 (amended): `popline_ascii85(N)` never consults `N` while decoding:
`N` only sizes the `calloc`-ed destination buffer.  The loop decodes one word
per encoded group all the way to the end-of-line newline, so on a line
encoding the word sequence `ws` it writes exactly `ws.length` words for every
requested `N` — including `N < ws.length`, in which case the writes overrun
the `N`-word buffer. -/
theorem popline_ascii85_ignores_sizedwords (sizedwords : Nat) (ws : List Nat)
    (h : ∀ w ∈ ws, w < 4294967296) :
    popline_ascii85 sizedwords (32 :: (encode85 ws ++ [10])) = some ws :=
  popline_ascii85_roundtrip_core sizedwords ws h

/-- Witness for `popline_ascii85_ignores_sizedwords` with `N = 1` and two
encoded zero words: both words are produced despite `N = 1`. -/
theorem popline_ascii85_ignores_sizedwords_witness :
    (∀ w ∈ ([0, 0] : List Nat), w < 4294967296) ∧
    popline_ascii85 1 (32 :: (encode85 [0, 0] ++ [10])) = some [0, 0] :=
  ⟨by decide, popline_ascii85_ignores_sizedwords 1 [0, 0] (by decide)⟩

/-! ### Line reader: `popline` / `pushline`

```
static char *lastline;
static char *pushedline;
```

`popline` returns the pushed-back line if any, else reads a fresh line
(freeing the previous one and remembering the new one in `lastline`);
end of stream calls `exit(0)`, modelled as `none`.  `pushline` asserts that
no line is already pushed back (`assert(!pushedline)`, assertion failure
modelled as `none`) and stores `lastline` into `pushedline`. -/

structure LineState where
  input : List (List Nat)
  lastline : Option (List Nat)
  pushedline : Option (List Nat)

/-- Function `popline()`. -/
def popline (s : LineState) : Option (List Nat × LineState) :=
  match s.pushedline with
  | some r => some (r, { s with pushedline := none })
  | none =>
    match s.input with
    | [] => none
    | r :: rest => some (r, { input := rest, lastline := some r, pushedline := none })

/-- Function `pushline()`. -/
def pushline (s : LineState) : Option LineState :=
  match s.pushedline with
  | some _ => none
  | none => some { s with pushedline := s.lastline }

/-- C8: from any reader state in which a pushed-back line (if any) is the
remembered `lastline` — an invariant of all reachable states — once
`popline()` has returned a line `L`, a `pushline()` succeeds and the next
`popline()` re-delivers exactly `L`; and a second `pushline()` without an
intervening `popline()` fails the `assert(!pushedline)` assertion. -/
theorem popline_pushline_roundtrip (s : LineState) (L : List Nat) (s' : LineState)
    (hwf : ∀ l, s.pushedline = some l → s.lastline = some l)
    (hpop : popline s = some (L, s')) :
    ∃ s'', pushline s' = some s'' ∧
      (∃ s3, popline s'' = some (L, s3)) ∧
      pushline s'' = none := by
  cases hp : s.pushedline with
  | some l =>
    have hl : s.lastline = some l := hwf l hp
    unfold popline at hpop
    rw [hp] at hpop
    have hL : l = L ∧ { s with pushedline := none } = s' := by
      constructor
      · exact (Prod.mk.injEq _ _ _ _ ▸ Option.some.inj hpop).1
      · exact (Prod.mk.injEq _ _ _ _ ▸ Option.some.inj hpop).2
    obtain ⟨rfl, rfl⟩ := hL
    refine ⟨{ s with pushedline := s.lastline }, ?_, ?_, ?_⟩
    · simp [pushline]
    · refine ⟨{ s with pushedline := none }, ?_⟩
      simp [popline, hl]
    · simp [pushline, hl]
  | none =>
    unfold popline at hpop
    rw [hp] at hpop
    cases hi : s.input with
    | nil => rw [hi] at hpop; simp at hpop
    | cons r rest =>
      rw [hi] at hpop
      have hL : r = L ∧ ({ input := rest, lastline := some r, pushedline := none }
          : LineState) = s' := by
        constructor
        · exact (Prod.mk.injEq _ _ _ _ ▸ Option.some.inj hpop).1
        · exact (Prod.mk.injEq _ _ _ _ ▸ Option.some.inj hpop).2
      obtain ⟨rfl, rfl⟩ := hL
      refine ⟨{ input := rest, lastline := some r, pushedline := some r }, ?_, ?_, ?_⟩
      · simp [pushline]
      · exact ⟨{ input := rest, lastline := some r, pushedline := none }, by simp [popline]⟩
      · simp [pushline]

/-- Witness for `popline_pushline_roundtrip` on a one-line stream. -/
theorem popline_pushline_roundtrip_witness :
    (∀ l, (LineState.mk [[97]] none none).pushedline = some l →
      (LineState.mk [[97]] none none).lastline = some l) ∧
    (∃ s'', pushline (LineState.mk [] (some [97]) none) = some s'' ∧
      (∃ s3, popline s'' = some ([97], s3)) ∧
      pushline s'' = none) :=
  ⟨fun l h => by simp at h,
    popline_pushline_roundtrip (LineState.mk [[97]] none none) [97]
      (LineState.mk [] (some [97]) none) (fun l h => by simp at h) rfl⟩

/-! ### Register-read helpers

`regbase` (name → register index, 0 when unknown) and `reg_val`
(index → last stored 32-bit value) are the external register-database
collaborators (`rnnutil`); they are taken as parameters. -/

/-- The value computed by `regval64`: `val = reg_val(reg);
if (is_64b()) val |= ((uint64_t)reg_val(reg + 1)) << 32;`. -/
def regval64_val (gpu_id : Nat) (regbase : String → Nat) (reg_val : Nat → Nat)
    (name : String) : Nat :=
  if is_64b gpu_id then
    reg_val (regbase name) ||| reg_val (regbase name + 1) <<< 32
  else reg_val (regbase name)

/-- Function `regval64`: `assert(reg)` — a name that does not resolve (index 0) is an
assertion failure, modelled as `none`. -/
def regval64 (gpu_id : Nat) (regbase : String → Nat) (reg_val : Nat → Nat)
    (name : String) : Option Nat :=
  if regbase name = 0 then none
  else some (regval64_val gpu_id regbase reg_val name)

/-- Function `regval`: 32-bit read, same assertion on the name. -/
def regval (regbase : String → Nat) (reg_val : Nat → Nat) (name : String) : Option Nat :=
  if regbase name = 0 then none else some (reg_val (regbase name))

/-- C10: for every resolving register name, `regval64` returns
`reg_val(reg) | reg_val(reg+1) << 32` when `gpu_id >= 500` and the plain
32-bit value `reg_val(reg)` when `gpu_id < 500`. -/
theorem regval64_composition (gpu_id : Nat) (regbase : String → Nat) (reg_val : Nat → Nat)
    (name : String) (hreg : regbase name ≠ 0) :
    (500 ≤ gpu_id → regval64 gpu_id regbase reg_val name
      = some (reg_val (regbase name) ||| reg_val (regbase name + 1) <<< 32)) ∧
    (gpu_id < 500 → regval64 gpu_id regbase reg_val name
      = some (reg_val (regbase name))) := by
  constructor
  · intro h
    simp [regval64, regval64_val, is_64b, hreg, h]
  · intro h
    simp [regval64, regval64_val, is_64b, hreg, Nat.not_le.2 h]

/-- Witness for `regval64_composition` at `gpu_id = 600` with
`regbase = const 7`, `reg_val = id`. -/
theorem regval64_composition_witness :
    ((fun _ : String => 7) "CP_RB_BASE" ≠ 0) ∧
    ((500 ≤ 600 → regval64 600 (fun _ => 7) (fun r => r) "CP_RB_BASE"
      = some (7 ||| 8 <<< 32)) ∧
    (600 < 500 → regval64 600 (fun _ => 7) (fun r => r) "CP_RB_BASE" = some 7)) :=
  ⟨by decide, regval64_composition 600 (fun _ => 7) (fun r => r) "CP_RB_BASE" (by decide)⟩

/-! ### `dump_cmdstream`

The model returns the two indirect-buffer descriptors stored into
`options.ibs[1]` / `options.ibs[2]` and an event trace recording, in program
order: the named register reads, the `reset_regs()` call, every ring-buffer
word read (`ringbuffers[id].buf[...]`) and the `dump_commands` hand-off.
`none` models an assertion failure (a register name that does not resolve).

The `ibs` fields live in `struct cffdec_options` (external `cffdec.h`).
Modelled from the spec: each indirect buffer is a base address plus a
remaining word count, kept as an unbounded `Nat`. -/

structure RB where
  iova : Nat
  rptr : Nat
  wptr : Nat
  size : Nat
  buf : Nat → Nat

inductive Ev where
  | readReg (name : String)
  | resetRegs
  | readRB (pos : Nat)
  | disasm (words : List Nat)
deriving DecidableEq

def isRegRead : Ev → Bool
  | .readReg _ => true
  | _ => false

def isRingOp : Ev → Bool
  | .readRB _ => true
  | .disasm _ => true
  | _ => false

/-- The body of `for (int id = 0; id < ARRAY_SIZE(ringbuffers); id++)`:
skip rings whose `iova` differs from `CP_RB_BASE`; otherwise run the backward
header search, compute `cmdszdw`, copy that many words out (reading
`buf[mod_add(rptr, idx)]`) and hand them to `dump_commands`. -/
def process_rb (gpu_id : Nat) (t4 t7 : Nat → Bool) (rb_base : Nat) (rb : RB) : List Ev :=
  if rb.iova = rb_base then
    (header_search (rb.size >>> 2)
        (fun p => valid_header gpu_id t4 t7 (rb.buf p)) rb.rptr).1.map Ev.readRB
      ++ (List.range (cmdszdw (rb.size >>> 2) rb.wptr
            (header_search (rb.size >>> 2)
              (fun p => valid_header gpu_id t4 t7 (rb.buf p)) rb.rptr).2)).map
          (fun idx => Ev.readRB (mod_add (rb.size >>> 2)
            (header_search (rb.size >>> 2)
              (fun p => valid_header gpu_id t4 t7 (rb.buf p)) rb.rptr).2 idx))
      ++ [Ev.disasm ((List.range (cmdszdw (rb.size >>> 2) rb.wptr
            (header_search (rb.size >>> 2)
              (fun p => valid_header gpu_id t4 t7 (rb.buf p)) rb.rptr).2)).map
          (fun idx => rb.buf (mod_add (rb.size >>> 2)
            (header_search (rb.size >>> 2)
              (fun p => valid_header gpu_id t4 t7 (rb.buf p)) rb.rptr).2 idx)))]
  else []

structure DumpResult where
  ib1base : Nat
  ib1rem : Nat
  ib2base : Nat
  ib2rem : Nat
  trace : List Ev

/-- Function `dump_cmdstream()`. -/
def dump_cmdstream (gpu_id : Nat) (regbase : String → Nat) (reg_val : Nat → Nat)
    (t4 t7 : Nat → Bool) (rbs : List RB) : Option DumpResult :=
  (regval64 gpu_id regbase reg_val "CP_RB_BASE").bind fun rb_base =>
  (regval64 gpu_id regbase reg_val "CP_IB1_BASE").bind fun ib1base =>
  (regval regbase reg_val "CP_IB1_REM_SIZE").bind fun ib1rem0 =>
  (regval64 gpu_id regbase reg_val "CP_IB2_BASE").bind fun ib2base =>
  (regval regbase reg_val "CP_IB2_REM_SIZE").bind fun ib2rem0 =>
  (if is_a6xx gpu_id then
    (regval regbase reg_val "CP_CSQ_IB1_STAT").bind fun s1 =>
    (regval regbase reg_val "CP_CSQ_IB2_STAT").bind fun s2 =>
    some (ib1rem0 + (s1 >>> 16), ib2rem0 + (s2 >>> 16),
      [Ev.readReg "CP_CSQ_IB1_STAT", Ev.readReg "CP_CSQ_IB2_STAT"])
  else some (ib1rem0, ib2rem0, ([] : List Ev))).bind fun rems =>
  some {
    ib1base := ib1base
    ib1rem := rems.1
    ib2base := ib2base
    ib2rem := rems.2.1
    trace := [Ev.readReg "CP_RB_BASE", Ev.readReg "CP_IB1_BASE",
              Ev.readReg "CP_IB1_REM_SIZE", Ev.readReg "CP_IB2_BASE",
              Ev.readReg "CP_IB2_REM_SIZE"] ++ rems.2.2
      ++ [Ev.resetRegs] ++ (rbs.map (process_rb gpu_id t4 t7 rb_base)).join }

/-- Closed form of `dump_cmdstream` when every register name resolves. -/
lemma dump_cmdstream_eq (gpu_id : Nat) (regbase : String → Nat) (reg_val : Nat → Nat)
    (t4 t7 : Nat → Bool) (rbs : List RB) (hregs : ∀ nm, regbase nm ≠ 0) :
    dump_cmdstream gpu_id regbase reg_val t4 t7 rbs = some {
      ib1base := regval64_val gpu_id regbase reg_val "CP_IB1_BASE"
      ib1rem := reg_val (regbase "CP_IB1_REM_SIZE")
        + (if is_a6xx gpu_id then reg_val (regbase "CP_CSQ_IB1_STAT") >>> 16 else 0)
      ib2base := regval64_val gpu_id regbase reg_val "CP_IB2_BASE"
      ib2rem := reg_val (regbase "CP_IB2_REM_SIZE")
        + (if is_a6xx gpu_id then reg_val (regbase "CP_CSQ_IB2_STAT") >>> 16 else 0)
      trace := [Ev.readReg "CP_RB_BASE", Ev.readReg "CP_IB1_BASE",
              Ev.readReg "CP_IB1_REM_SIZE", Ev.readReg "CP_IB2_BASE",
              Ev.readReg "CP_IB2_REM_SIZE"]
        ++ (if is_a6xx gpu_id then
              [Ev.readReg "CP_CSQ_IB1_STAT", Ev.readReg "CP_CSQ_IB2_STAT"]
            else [])
        ++ [Ev.resetRegs]
        ++ (rbs.map (process_rb gpu_id t4 t7
              (regval64_val gpu_id regbase reg_val "CP_RB_BASE"))).join } := by
  by_cases h6 : is_a6xx gpu_id <;>
    simp [dump_cmdstream, regval64, regval, hregs, h6]

lemma process_rb_ring_ops (gpu_id : Nat) (t4 t7 : Nat → Bool) (rb_base : Nat) (rb : RB) :
    ∀ e ∈ process_rb gpu_id t4 t7 rb_base rb, isRingOp e = true := by
  intro e he
  unfold process_rb at he
  by_cases h : rb.iova = rb_base
  · rw [if_pos h] at he
    simp only [List.mem_append, List.mem_map, List.mem_singleton] at he
    rcases he with (⟨p, _, rfl⟩ | ⟨i, _, rfl⟩) | rfl <;> rfl
  · rw [if_neg h] at he
    exact absurd he (List.not_mem_nil e)

lemma process_rb_skip (gpu_id : Nat) (t4 t7 : Nat → Bool) (rb_base : Nat) (rb : RB)
    (h : rb.iova ≠ rb_base) : process_rb gpu_id t4 t7 rb_base rb = [] := by
  unfold process_rb
  rw [if_neg h]

/-- C6: when no ring buffer's `iova` equals the `CP_RB_BASE` value, the
reconstruction performs no ring-buffer read and no disassembly, raises no
error (all asserts pass, the function returns normally), and the rest of the
decode continues. -/
theorem dump_cmdstream_no_ring_match (gpu_id : Nat) (regbase : String → Nat)
    (reg_val : Nat → Nat) (t4 t7 : Nat → Bool) (rbs : List RB)
    (hregs : ∀ nm, regbase nm ≠ 0)
    (hnone : ∀ rb ∈ rbs, rb.iova ≠ regval64_val gpu_id regbase reg_val "CP_RB_BASE") :
    ∃ res, dump_cmdstream gpu_id regbase reg_val t4 t7 rbs = some res ∧
      ∀ e ∈ res.trace, isRingOp e = false := by
  refine ⟨_, dump_cmdstream_eq gpu_id regbase reg_val t4 t7 rbs hregs, ?_⟩
  intro e he
  have hjoin : (rbs.map (process_rb gpu_id t4 t7
      (regval64_val gpu_id regbase reg_val "CP_RB_BASE"))).join = [] := by
    rw [List.join_eq_nil_iff]
    intro l hl
    rcases List.mem_map.1 hl with ⟨rb, hrb, rfl⟩
    exact process_rb_skip gpu_id t4 t7 _ rb (hnone rb hrb)
  rw [hjoin] at he
  by_cases h6 : is_a6xx gpu_id
  · simp [h6] at he
    rcases he with rfl | rfl | rfl | rfl | rfl | rfl | rfl | rfl <;> rfl
  · simp [h6] at he
    rcases he with rfl | rfl | rfl | rfl | rfl | rfl <;> rfl

/-- Witness for `dump_cmdstream_no_ring_match`: one ring with `iova = 1`
while `CP_RB_BASE` reads as 0. -/
theorem dump_cmdstream_no_ring_match_witness :
    (∀ nm : String, (fun _ : String => 1) nm ≠ 0) ∧
    (∀ rb ∈ [RB.mk 1 0 0 64 (fun _ => 0)],
      rb.iova ≠ regval64_val 600 (fun _ : String => 1) (fun _ => 0) "CP_RB_BASE") ∧
    (∃ res, dump_cmdstream 600 (fun _ : String => 1) (fun _ => 0) (fun _ => false)
        (fun _ => false) [RB.mk 1 0 0 64 (fun _ => 0)] = some res ∧
      ∀ e ∈ res.trace, isRingOp e = false) :=
  ⟨fun _ => Nat.one_ne_zero, by decide,
    dump_cmdstream_no_ring_match 600 (fun _ => 1) (fun _ => 0) (fun _ => false)
      (fun _ => false) [RB.mk 1 0 0 64 (fun _ => 0)] (fun _ => Nat.one_ne_zero) (by decide)⟩

/-- C7: in every run of `dump_cmdstream` whose register names resolve, the
trace splits as `pre ++ resetRegs :: post` where `pre` consists only of
register reads — and contains the `CP_RB_BASE`, IB base/remaining-size reads
and (on a6xx) the `CP_CSQ_IBn_STAT` reads — and `post` consists only of
ring-buffer reads and disassembly hand-offs: the reset happens strictly after
the command-processor registers are read and strictly before the ring search,
word copy and disassembly. -/
theorem dump_cmdstream_reset_ordering (gpu_id : Nat) (regbase : String → Nat)
    (reg_val : Nat → Nat) (t4 t7 : Nat → Bool) (rbs : List RB)
    (hregs : ∀ nm, regbase nm ≠ 0) :
    ∃ res pre post, dump_cmdstream gpu_id regbase reg_val t4 t7 rbs = some res ∧
      res.trace = pre ++ Ev.resetRegs :: post ∧
      (∀ e ∈ pre, isRegRead e = true) ∧
      (∀ e ∈ post, isRingOp e = true) ∧
      Ev.readReg "CP_RB_BASE" ∈ pre ∧ Ev.readReg "CP_IB1_BASE" ∈ pre ∧
      Ev.readReg "CP_IB1_REM_SIZE" ∈ pre ∧ Ev.readReg "CP_IB2_BASE" ∈ pre ∧
      Ev.readReg "CP_IB2_REM_SIZE" ∈ pre ∧
      (is_a6xx gpu_id = true →
        Ev.readReg "CP_CSQ_IB1_STAT" ∈ pre ∧ Ev.readReg "CP_CSQ_IB2_STAT" ∈ pre) := by
  refine ⟨_,
    [Ev.readReg "CP_RB_BASE", Ev.readReg "CP_IB1_BASE", Ev.readReg "CP_IB1_REM_SIZE",
     Ev.readReg "CP_IB2_BASE", Ev.readReg "CP_IB2_REM_SIZE"]
      ++ (if is_a6xx gpu_id then
            [Ev.readReg "CP_CSQ_IB1_STAT", Ev.readReg "CP_CSQ_IB2_STAT"]
          else []),
    (rbs.map (process_rb gpu_id t4 t7
      (regval64_val gpu_id regbase reg_val "CP_RB_BASE"))).join,
    dump_cmdstream_eq gpu_id regbase reg_val t4 t7 rbs hregs, ?_, ?_, ?_, ?_⟩
  · simp
  · intro e he
    by_cases h6 : is_a6xx gpu_id
    · simp [h6] at he
      rcases he with rfl | rfl | rfl | rfl | rfl | rfl | rfl <;> rfl
    · simp [h6] at he
      rcases he with rfl | rfl | rfl | rfl | rfl <;> rfl
  · intro e he
    rcases List.mem_join.1 he with ⟨l, hl, hel⟩
    rcases List.mem_map.1 hl with ⟨rb, _, rfl⟩
    exact process_rb_ring_ops gpu_id t4 t7 _ rb e hel
  · refine ⟨by simp, by simp, by simp, by simp, by simp, ?_⟩
    intro h6
    simp [h6]

/-- Witness for `dump_cmdstream_reset_ordering` at `gpu_id = 600` with
trivially resolving names and no rings. -/
theorem dump_cmdstream_reset_ordering_witness :
    (∀ nm : String, (fun _ : String => 1) nm ≠ 0) ∧
    (∃ res pre post,
      dump_cmdstream 600 (fun _ : String => 1) (fun _ => 0) (fun _ => false)
        (fun _ => false) [] = some res ∧
      res.trace = pre ++ Ev.resetRegs :: post ∧
      (∀ e ∈ pre, isRegRead e = true) ∧
      (∀ e ∈ post, isRingOp e = true) ∧
      Ev.readReg "CP_RB_BASE" ∈ pre ∧ Ev.readReg "CP_IB1_BASE" ∈ pre ∧
      Ev.readReg "CP_IB1_REM_SIZE" ∈ pre ∧ Ev.readReg "CP_IB2_BASE" ∈ pre ∧
      Ev.readReg "CP_IB2_REM_SIZE" ∈ pre ∧
      (is_a6xx 600 = true →
        Ev.readReg "CP_CSQ_IB1_STAT" ∈ pre ∧ Ev.readReg "CP_CSQ_IB2_STAT" ∈ pre)) :=
  ⟨fun _ => Nat.one_ne_zero,
    dump_cmdstream_reset_ordering 600 (fun _ => 1) (fun _ => 0) (fun _ => false)
      (fun _ => false) [] (fun _ => Nat.one_ne_zero)⟩

/-- C9: with resolving register names, for `600 <= gpu_id < 700` the stored
remaining word count of each indirect buffer is `CP_IBn_REM_SIZE` plus the
upper 16 bits of `CP_CSQ_IBn_STAT`; for every other generation it is
`CP_IBn_REM_SIZE` unchanged. -/
theorem dump_cmdstream_ib_rem_fixup (gpu_id : Nat) (regbase : String → Nat)
    (reg_val : Nat → Nat) (t4 t7 : Nat → Bool) (rbs : List RB)
    (hregs : ∀ nm, regbase nm ≠ 0) :
    ∃ res, dump_cmdstream gpu_id regbase reg_val t4 t7 rbs = some res ∧
      ((600 ≤ gpu_id ∧ gpu_id < 700) →
        res.ib1rem = reg_val (regbase "CP_IB1_REM_SIZE")
          + reg_val (regbase "CP_CSQ_IB1_STAT") >>> 16 ∧
        res.ib2rem = reg_val (regbase "CP_IB2_REM_SIZE")
          + reg_val (regbase "CP_CSQ_IB2_STAT") >>> 16) ∧
      (¬ (600 ≤ gpu_id ∧ gpu_id < 700) →
        res.ib1rem = reg_val (regbase "CP_IB1_REM_SIZE") ∧
        res.ib2rem = reg_val (regbase "CP_IB2_REM_SIZE")) := by
  refine ⟨_, dump_cmdstream_eq gpu_id regbase reg_val t4 t7 rbs hregs, ?_, ?_⟩
  · intro h
    have h6 : is_a6xx gpu_id = true := by simp [is_a6xx, h.1, h.2]
    simp [h6]
  · intro h
    have h6 : is_a6xx gpu_id = false := by
      simp only [is_a6xx, decide_eq_false_iff_not]
      exact h
    simp [h6]

/-- Witness for `dump_cmdstream_ib_rem_fixup` at `gpu_id = 630`,
`regbase = const 1`, `reg_val = const 65536`: both corrections apply and each
remaining count is `65536 + 1`. -/
theorem dump_cmdstream_ib_rem_fixup_witness :
    (∀ nm : String, (fun _ : String => 1) nm ≠ 0) ∧
    (∃ res, dump_cmdstream 630 (fun _ : String => 1) (fun _ => 65536) (fun _ => false)
        (fun _ => false) [] = some res ∧
      ((600 ≤ 630 ∧ 630 < 700) →
        res.ib1rem = 65536 + 65536 >>> 16 ∧ res.ib2rem = 65536 + 65536 >>> 16) ∧
      (¬ (600 ≤ 630 ∧ 630 < 700) →
        res.ib1rem = 65536 ∧ res.ib2rem = 65536)) :=
  ⟨fun _ => Nat.one_ne_zero,
    dump_cmdstream_ib_rem_fixup 630 (fun _ => 1) (fun _ => 65536) (fun _ => false)
      (fun _ => false) [] (fun _ => Nat.one_ne_zero)⟩

/-! ### `parseline` and the `bos` section decoder

`startswith(line, start)` is `strstr(line, start) == line`, i.e. a prefix
test.  `parseline(line, fmt, ...)` runs `vsscanf` and calls `exit(1)` unless
the number of successful conversions matches the format; the two formats used
by `decode_bos` — `"  - iova: %"PRIx64` and `"    size: %u"` — are modelled
token by token with `scanf` matching semantics: a whitespace run in the
format skips any (possibly empty) whitespace run of the input, a literal byte
must match exactly, and `%x` / `%u` skip whitespace and then require at least
one digit (the sign/`0x`-prefix forms never occur in coredump lines). -/

def startswith : List Nat → List Nat → Bool
  | _, [] => true
  | [], _ :: _ => false
  | c :: cs, p :: ps => c == p && startswith cs ps

inductive ScanTok where
  | lit (c : Nat)
  | ws
  | hexf
  | decf
deriving DecidableEq

def isWS (c : Nat) : Bool :=
  c == 32 || c == 9 || c == 10 || c == 11 || c == 12 || c == 13

def hexDigitVal (c : Nat) : Option Nat :=
  if 48 ≤ c ∧ c ≤ 57 then some (c - 48)
  else if 97 ≤ c ∧ c ≤ 102 then some (c - 87)
  else if 65 ≤ c ∧ c ≤ 70 then some (c - 55)
  else none

def decDigitVal (c : Nat) : Option Nat :=
  if 48 ≤ c ∧ c ≤ 57 then some (c - 48) else none

def scanNum (digit : Nat → Option Nat) (base : Nat) : List Nat → Nat → Nat × List Nat
  | [], a => (a, [])
  | c :: l, a =>
    match digit c with
    | some d => scanNum digit base l (a * base + d)
    | none => (a, c :: l)

def scanField (digit : Nat → Option Nat) (base : Nat) (l : List Nat) :
    Option (Nat × List Nat) :=
  match l.dropWhile (fun c => isWS c) with
  | [] => none
  | c :: l' =>
    match digit c with
    | some _ => some (scanNum digit base (c :: l') 0)
    | none => none

def runScan : List ScanTok → List Nat → Option (List Nat)
  | [], _ => some []
  | ScanTok.lit c :: fs, l =>
    match l with
    | c' :: l' => if c' == c then runScan fs l' else none
    | [] => none
  | ScanTok.ws :: fs, l => runScan fs (l.dropWhile (fun c => isWS c))
  | ScanTok.hexf :: fs, l =>
    match scanField hexDigitVal 16 l with
    | some (v, l') => (runScan fs l').map (fun vs => v :: vs)
    | none => none
  | ScanTok.decf :: fs, l =>
    match scanField decDigitVal 10 l with
    | some (v, l') => (runScan fs l').map (fun vs => v :: vs)
    | none => none

def lits (s : List Nat) : List ScanTok := s.map ScanTok.lit

/-- The format `"  - iova: %"PRIx64` of `decode_bos`. -/
def fmt_bos_iova : List ScanTok :=
  [ScanTok.ws] ++ lits (str "-") ++ [ScanTok.ws] ++ lits (str "iova:")
    ++ [ScanTok.ws, ScanTok.hexf]

/-- The format `"    size: %u"` of `decode_bos`. -/
def fmt_bos_size : List ScanTok :=
  [ScanTok.ws] ++ lits (str "size:") ++ [ScanTok.ws, ScanTok.decf]

/-- Function `parseline` for the one-conversion formats of `decode_bos`: the parse
error path (`vsscanf` returning a different conversion count, followed by
`exit(1)`) is `none`. -/
def parseline1 (fmt : List ScanTok) (line : List Nat) : Option Nat :=
  match runScan fmt line with
  | some (v :: _) => some v
  | _ => none

structure Buffer where
  iova : Nat
  size : Nat
  data : List Nat
deriving DecidableEq

/-- Outcome of `decode_bos`: the section ends by pushing back the first
unindented line (`done`), by end of stream inside `popline` (`exit(0)`,
`eof`), or by a fatal abort — a `parseline` mismatch (`exit(1)`) or the
`assert(*line == ' ')` in `popline_ascii85` (`fatal`). -/
inductive BosOut where
  | done (bufs : List Buffer) (pushed : List Nat)
  | eof (bufs : List Buffer)
  | fatal
deriving DecidableEq

/-- The `foreach_line_in_section` loop of `decode_bos`, carrying the local
`uint32_t size = 0; uint64_t iova = 0;` across entries and collecting the
`add_buffer(iova, size, buf)` registrations in order.  Echoed pass-through
lines do not affect the state. -/
def decode_bos_go : List (List Nat) → Nat → Nat → List Buffer → BosOut
  | [], _, _, acc => BosOut.eof acc
  | line :: rest, iova, size, acc =>
    if ¬ (line.head? = some 32) then BosOut.done acc line
    else if startswith line (str "  - iova:") then
      match parseline1 fmt_bos_iova line with
      | none => BosOut.fatal
      | some v => decode_bos_go rest v size acc
    else if startswith line (str "    size:") then
      match parseline1 fmt_bos_size line with
      | none => BosOut.fatal
      | some v => decode_bos_go rest iova v acc
    else if startswith line (str "    data: !!ascii85 |") then
      match rest with
      | [] => BosOut.eof acc
      | pay :: rest2 =>
        match popline_ascii85 (size / 4) pay with
        | none => BosOut.fatal
        | some words => decode_bos_go rest2 iova size (acc ++ [Buffer.mk iova size words])
    else decode_bos_go rest iova size acc

/-- Function `decode_bos()`. -/
def decode_bos (lines : List (List Nat)) : BosOut := decode_bos_go lines 0 0 []

/-- A `bos` section whose (first) entry carries a `data:` line with no
preceding `size:` line, followed by the next section header. -/
def bos_missing_size_lines : List (List Nat) :=
  [str "  - iova: 1000\n", str "    data: !!ascii85 |\n", str " \n", str "end\n"]

/-- C5 counterexample to the claim as stated: a `bos` entry whose `data:`
line is not preceded by any `size:` line does NOT cause a fatal parse error —
`decode_bos` decodes the payload with the initial `size = 0`, silently
registers the buffer `(iova = 0x1000, size = 0)` and ends the section
normally at the next unindented line. -/
theorem decode_bos_missing_size_cex :
    decode_bos bos_missing_size_lines = BosOut.done [Buffer.mk 4096 0 []] (str "end\n") ∧
    decode_bos bos_missing_size_lines ≠ BosOut.fatal := by
  constructor
  · decide
  · decide

/-- C5 (amended): a `bos` entry whose `data:` line is not preceded by a
`size:` line is decoded silently with the current value of `decode_bos`'s
`size` local — `0` for a first entry, or the stale size left over from a
previous entry — whatever that value is; no fatal parse error is raised and
the buffer is registered with that wrong or stale size. -/
theorem decode_bos_missing_size_stale (iova0 size0 : Nat) (acc : List Buffer) :
    decode_bos_go bos_missing_size_lines iova0 size0 acc
      = BosOut.done (acc ++ [Buffer.mk 4096 size0 []]) (str "end\n") := rfl

end Crashdec
